import Mathlib

/-!
Shallow embedding of `src/flashcards.py` (an interactive flashcard study
tool).  The in-memory store is a Python `dict` subclass `Flashcards`
mapping a term (string) to a `Card` (definition string plus error count);
a Python dict preserves insertion order, so the store is embedded as an
association list whose key list is `Nodup`.  Interactive prompt/response
I/O is embedded by passing the user's input as an argument, and each
`log_message` call sequence that builds one logical output line is
embedded as the resulting line (a `String`).  The CSV file layer
(`csv.writer` / `csv.DictReader`, Python standard library, an external
collaborator of the core) is embedded at the record boundary: a file is
an ordered list of three-field records `(Term, Definition, ErrorCount)`,
all fields strings; `str` on the written error count is `toString` and
`int` on the read one is decimal parsing (`String.toNat?`).
-/

/-- Source `Card.__init__`: a flashcard holds a definition and an error count
(`error_count` defaults to 0 at the call sites that omit it). -/
structure Card where
  definition : String
  error_count : Nat
  deriving DecidableEq, Repr

/-- Source `Card.__eq__(self, other)`: `self.definition == other`.  In the source
a card is always compared against an answer string (via Python's reflected
equality when the string is on the left). -/
def Card.eq (c : Card) (other : String) : Bool :=
  c.definition == other

/-- The `Flashcards` store: a `dict[str, Card]` with insertion order,
embedded as an association list with `Nodup` keys (see `Flashcards.WF`). -/
abbrev Flashcards := List (String × Card)

/-- The sequence `self.keys()` in iteration (= insertion) order. -/
def Flashcards.keys (s : Flashcards) : List String :=
  s.map Prod.fst

/-- The sequence `self.values()` in iteration (= insertion) order. -/
def Flashcards.values (s : Flashcards) : List Card :=
  s.map Prod.snd

/-- Membership `term in self` (dict key membership). -/
def Flashcards.containsKey (s : Flashcards) (k : String) : Bool :=
  s.any (fun p => p.1 == k)

/-- Lookup `self[k]` as a lookup that can fail (Python raises `KeyError`). -/
def Flashcards.dictGet (s : Flashcards) (k : String) : Option Card :=
  (s.find? (fun p => p.1 == k)).map Prod.snd

/-- Lookup `self[k]` at call sites where the key is known to be present (the quiz
and report logic only looks up existing keys); a dummy card stands for the
unreachable `KeyError`. -/
def Flashcards.dictGetD (s : Flashcards) (k : String) : Card :=
  (s.dictGet k).getD ⟨"", 0⟩

/-- Assignment `self[k] = c`: overwrite in place when the key is
present, append at the end of iteration order when it is new. -/
def Flashcards.dictInsert (s : Flashcards) (k : String) (c : Card) : Flashcards :=
  if s.containsKey k then s.map (fun p => if p.1 == k then (k, c) else p)
  else s ++ [(k, c)]

/-- Deletion `del self[k]` for a present key: drop that entry. -/
def Flashcards.dictDelete (s : Flashcards) (k : String) : Flashcards :=
  s.eraseP (fun p => p.1 == k)

/-- The dict invariant: keys are unique.  Python's `dict` guarantees this
by construction; the association-list embedding carries it as a predicate. -/
def Flashcards.WF (s : Flashcards) : Prop :=
  s.keys.Nodup

instance (s : Flashcards) : Decidable s.WF :=
  List.nodupDecidable _

/-- One attempt of `check_input_for_duplicates`: the candidate input is
rejected (the source re-prompts) exactly when it is in `set_to_check`;
otherwise it is returned. -/
def check_input_for_duplicates (user_input : String) (set_to_check : List String) :
    Option String :=
  if set_to_check.contains user_input then none else some user_input

/-- Membership of an answer string in `self.values()`: Python evaluates
`user_input in values` through `Card.__eq__`, so it compares definitions. -/
def Flashcards.memValues (s : Flashcards) (x : String) : Bool :=
  s.values.any (fun c => Card.eq c x)

/-- Operation `Flashcards.add_card` on one pair of candidate inputs: `none` when the
term is a duplicate key or the definition a duplicate value (the source
re-prompts, leaving the store untouched); on success the new
`Card(definition)` (error count 0) is inserted and the confirmation
message returned. -/
def Flashcards.add_card (s : Flashcards) (term definition : String) :
    Option (Flashcards × String) :=
  match check_input_for_duplicates term s.keys with
  | none => none
  | some t =>
    if s.memValues definition then none
    else some (s.dictInsert t ⟨definition, 0⟩,
      "The pair (\"" ++ t ++ "\":\"" ++ definition ++ "\") has been added.")

/-- Operation `Flashcards.remove_card`: delete the entry when present, otherwise
report that there is no such card; either way return the new store and the
message logged. -/
def Flashcards.remove_card (s : Flashcards) (card_to_remove : String) :
    Flashcards × String :=
  if s.containsKey card_to_remove then
    (s.dictDelete card_to_remove, "The card has been removed.")
  else
    (s, "Can\x27t remove \"" ++ card_to_remove ++ "\": there is no such card.")

/-- Parsing `int(line["Error Count"])` of a record field (Python `int` of the
decimal text; non-numeric text is a contract violation in the source and
is given the junk value 0 here). -/
def parseErrorCount (ec : String) : Nat :=
  (ec.toNat?).getD 0

/-- The record loop of `Flashcards.import_file`: each record assigns
`self[Term] = Card(Definition, int(ErrorCount))`, so a later record with
the same term overwrites an earlier card (last write wins). -/
def Flashcards.importRecords (s : Flashcards) :
    List (String × String × String) → Flashcards
  | [] => s
  | (t, d, ec) :: more =>
    Flashcards.importRecords (s.dictInsert t ⟨d, parseErrorCount ec⟩) more

/-- Operation `Flashcards.import_file`: `none` models `FileNotFoundError` (the file
is missing), reported as "File not found." with the store untouched;
`some recs` is the parsed record list of an existing file. -/
def Flashcards.import_file (s : Flashcards)
    (file : Option (List (String × String × String))) : Flashcards × String :=
  match file with
  | none => (s, "File not found.")
  | some recs =>
    (s.importRecords recs, toString recs.length ++ " cards have been loaded.")

/-- Operation `Flashcards.export_file`: one record per entry in iteration order,
`(term, card.definition, card.error_count)` with the count written as
decimal text by the writer; also the message logged. -/
def Flashcards.export_file (s : Flashcards) :
    List (String × String × String) × String :=
  (s.map (fun p => (p.1, p.2.definition, toString p.2.error_count)),
   toString s.length ++ " cards have been saved.")

/-- Statement `self[card].error_count += 1`: bump the error count of the card stored
at key `t`, in place (iteration order, keys and definitions untouched). -/
def Flashcards.bumpError (s : Flashcards) (t : String) : Flashcards :=
  s.map (fun p => if p.1 == t then (p.1, ⟨p.2.definition, p.2.error_count + 1⟩) else p)

/-- The prompt `ask_user` issues for one term. -/
def askPrompt (t : String) : String :=
  "Print the definition of \"" ++ t ++ "\":"

/-- One round of `Flashcards.ask_user` on current term `t` with the user's
`answer`: on a correct answer the store is unchanged and "Correct!" is
logged; otherwise the error count is bumped first, then the report line is
assembled from `Wrong. The right answer is "<definition>"`, the alternate
match hint for the first *other* term (iteration order, `break` at the
first hit) whose card equals the answer, and the terminating period. -/
def askRound (s : Flashcards) (t answer : String) : Flashcards × String :=
  let c := s.dictGetD t
  if Card.eq c answer then (s, "Correct!")
  else
    let s2 := s.bumpError t
    let alt := s2.keys.find? (fun other_card =>
      !(t == other_card) && Card.eq (s2.dictGetD other_card) answer)
    (s2,
      "Wrong. The right answer is \"" ++ c.definition ++ "\"" ++
      (match alt with
       | some other_card => ", but your definition is correct for \"" ++ other_card ++ "\""
       | none => "") ++ ".")

/-- The round sequence of `ask_user`: fold `askRound` over the list of
(term, answer) pairs, collecting per round the prompt issued and the
report line logged. -/
def askRounds (s : Flashcards) :
    List (String × String) → Flashcards × List (String × String)
  | [] => (s, [])
  | (t, a) :: more =>
    let r := askRound s t a
    let tail := askRounds r.1 more
    (tail.1, (askPrompt t, r.2) :: tail.2)

/-- Projection of `zip(range(n), itertools.cycle(self))` to the cycled keys:
the first `n` terms of the store's key sequence repeated indefinitely, or
no terms at all when the store is empty (`cycle` of an empty dict is
immediately exhausted). -/
def cycleTake (xs : List String) (n : Nat) : List String :=
  if xs.isEmpty then [] else (List.range n).map (fun i => xs.getD (i % xs.length) "")

/-- Operation `Flashcards.ask_user` with quiz length `n` and the user's answers given
per round index: returns the final store and, per round, the prompt and
the report line. -/
def Flashcards.ask_user (s : Flashcards) (n : Nat) (answers : Nat → String) :
    Flashcards × List (String × String) :=
  askRounds s ((cycleTake s.keys n).enum.map (fun p => (p.2, answers p.1)))

/-- Computation `max(card.error_count for card in self.values())`, 0 for an empty
store (the source guards with `if self:`; for a nonempty store the fold
from 0 equals Python's `max` since counts are naturals). -/
def Flashcards.maxErrorCount (s : Flashcards) : Nat :=
  s.values.foldl (fun m c => max m c.error_count) 0

/-- Operation `Flashcards.hardest_card`: the report line logged.  Zero maximum (empty
store included) reports no cards with errors; otherwise the tied terms are
collected in iteration order and reported singular or plural. -/
def Flashcards.hardest_card (s : Flashcards) : String :=
  let max_error_count := s.maxErrorCount
  if max_error_count == 0 then "There are no cards with errors."
  else
    let hardest_cards := s.keys.filter
      (fun card => (s.dictGetD card).error_count == max_error_count)
    if hardest_cards.length == 1 then
      "The hardest card is \"" ++ hardest_cards.getD 0 "" ++ "\". You have " ++
        toString max_error_count ++ " errors answering it."
    else
      "The hardest cards are " ++ String.intercalate ", " hardest_cards ++
        ". You have " ++ toString max_error_count ++ " errors answering them."

/-- Claim-side characterization (from the spec's words, for comparison with
the scan in `askRound`): `u` is the first term in store iteration order,
other than the current term `t`, whose card's definition equals the
answer `a`. -/
def isFirstAltMatch (s : Flashcards) (t a u : String) : Prop :=
  ∃ i : Fin (Flashcards.keys s).length,
    (Flashcards.keys s).get i = u ∧ u ≠ t ∧
    (Flashcards.dictGetD s u).definition = a ∧
    ∀ j : Fin (Flashcards.keys s).length, j < i →
      (Flashcards.keys s).get j = t ∨
      (Flashcards.dictGetD s ((Flashcards.keys s).get j)).definition ≠ a

instance (s : Flashcards) (t a u : String) : Decidable (isFirstAltMatch s t a u) := by
  unfold isFirstAltMatch
  infer_instance

/-- Claim-side characterization (from the spec's words, for comparison with
the tie list in `hardest_card`): the terms whose card attains the maximum
error count, in insertion order, read off the entries directly. -/
def attainers (s : Flashcards) : List String :=
  (s.filter (fun p => p.2.error_count == Flashcards.maxErrorCount s)).map Prod.fst

/-! ### Dictionary lemmas -/

theorem dictGet_cons_self (p : String × Card) (s : Flashcards) :
    Flashcards.dictGet (p :: s) p.1 = some p.2 := by
  rw [Flashcards.dictGet, List.find?_cons_of_pos _ (by simp)]
  rfl

theorem dictGet_cons_ne (p : String × Card) (s : Flashcards) (u : String)
    (h : u ≠ p.1) : Flashcards.dictGet (p :: s) u = Flashcards.dictGet s u := by
  rw [Flashcards.dictGet, List.find?_cons_of_neg _ (by simp [Ne.symm h])]
  rfl

theorem containsKey_eq_false_iff (s : Flashcards) (k : String) :
    Flashcards.containsKey s k = false ↔ ∀ p ∈ s, p.1 ≠ k := by
  simp [Flashcards.containsKey, List.any_eq_false]

theorem dictGet_eq_none_of_not_contains (s : Flashcards) (k : String)
    (h : Flashcards.containsKey s k = false) : Flashcards.dictGet s k = none := by
  rw [containsKey_eq_false_iff] at h
  have hf : List.find? (fun p => p.1 == k) s = none :=
    List.find?_eq_none.2 (by intro x hx; simpa using h x hx)
  simp [Flashcards.dictGet, hf]

theorem dictInsert_of_not_contains (s : Flashcards) (k : String) (c : Card)
    (h : Flashcards.containsKey s k = false) :
    Flashcards.dictInsert s k c = s ++ [(k, c)] := by
  simp [Flashcards.dictInsert, h]

theorem find?_map_insert_self (s : Flashcards) (k : String) (c : Card)
    (h : Flashcards.containsKey s k = true) :
    List.find? (fun p => p.1 == k) (s.map (fun p => if p.1 == k then (k, c) else p)) =
      some (k, c) := by
  induction s with
  | nil => simp [Flashcards.containsKey] at h
  | cons p s ih =>
    rw [List.map_cons]
    by_cases hp : p.1 = k
    · rw [if_pos (by simp [hp]), List.find?_cons_of_pos _ (by simp)]
    · have hp2 : (p.1 == k) = false := by simp [hp]
      have h2 : Flashcards.containsKey s k = true := by
        simpa [Flashcards.containsKey, List.any_cons, hp2] using h
      rw [if_neg (by simp [hp]), List.find?_cons_of_neg _ (by simp [hp])]
      exact ih h2

theorem find?_map_insert_ne (s : Flashcards) (k j : String) (c : Card)
    (h : j ≠ k) :
    List.find? (fun p => p.1 == j) (s.map (fun p => if p.1 == k then (k, c) else p)) =
      List.find? (fun p => p.1 == j) s := by
  induction s with
  | nil => rfl
  | cons p s ih =>
    rw [List.map_cons]
    by_cases hp : p.1 = k
    · rw [if_pos (by simp [hp]), List.find?_cons_of_neg _ (by simp [Ne.symm h]),
        List.find?_cons_of_neg _ (by simp [hp, Ne.symm h])]
      exact ih
    · rw [if_neg (by simp [hp])]
      by_cases hj : p.1 = j
      · rw [List.find?_cons_of_pos _ (by simp [hj]),
          List.find?_cons_of_pos _ (by simp [hj])]
      · rw [List.find?_cons_of_neg _ (by simp [hj]),
          List.find?_cons_of_neg _ (by simp [hj])]
        exact ih

theorem dictGet_dictInsert_self (s : Flashcards) (k : String) (c : Card) :
    Flashcards.dictGet (Flashcards.dictInsert s k c) k = some c := by
  by_cases h : Flashcards.containsKey s k = true
  · rw [Flashcards.dictInsert, if_pos h, Flashcards.dictGet,
      find?_map_insert_self s k c h]
    rfl
  · have h2 : Flashcards.containsKey s k = false := by simpa using h
    rw [dictInsert_of_not_contains s k c h2]
    have hf : List.find? (fun p => p.1 == k) s = none := by
      rw [containsKey_eq_false_iff] at h2
      exact List.find?_eq_none.2 (by intro x hx; simpa using h2 x hx)
    rw [Flashcards.dictGet, List.find?_append, hf]
    rw [List.find?_cons_of_pos _ (by simp)]
    rfl

theorem dictGet_dictInsert_ne (s : Flashcards) (k j : String) (c : Card)
    (h : j ≠ k) :
    Flashcards.dictGet (Flashcards.dictInsert s k c) j = Flashcards.dictGet s j := by
  by_cases hc : Flashcards.containsKey s k = true
  · rw [Flashcards.dictInsert, if_pos hc, Flashcards.dictGet,
      find?_map_insert_ne s k j c h]
    rfl
  · have h2 : Flashcards.containsKey s k = false := by simpa using hc
    rw [dictInsert_of_not_contains s k c h2]
    rw [Flashcards.dictGet, List.find?_append]
    rw [List.find?_cons_of_neg _ (by simp [Ne.symm h]), List.find?_nil]
    cases hf : List.find? (fun p => p.1 == j) s <;> simp [Flashcards.dictGet, hf]

theorem containsKey_dictInsert_self (s : Flashcards) (k : String) (c : Card) :
    Flashcards.containsKey (Flashcards.dictInsert s k c) k = true := by
  have h := dictGet_dictInsert_self s k c
  simp only [Flashcards.dictGet] at h
  rcases Option.map_eq_some.1 h with ⟨p, hp, _⟩
  have hpk := List.find?_some hp
  simp only [Flashcards.containsKey, List.any_eq_true]
  exact ⟨p, List.mem_of_find?_eq_some hp, hpk⟩

theorem keys_dictInsert_of_not_contains (s : Flashcards) (k : String) (c : Card)
    (h : s.containsKey k = false) :
    (s.dictInsert k c).keys = s.keys ++ [k] := by
  rw [dictInsert_of_not_contains s k c h]
  simp [Flashcards.keys]

/-! ### Quiz-engine lemmas -/

theorem bumpError_keys (s : Flashcards) (t : String) :
    Flashcards.keys (Flashcards.bumpError s t) = Flashcards.keys s := by
  simp only [Flashcards.keys, Flashcards.bumpError, List.map_map]
  apply List.map_congr_left
  intro p _
  by_cases h : p.1 = t <;> simp [h]

theorem dictGet_bumpError_self (s : Flashcards) (t : String) :
    Flashcards.dictGet (Flashcards.bumpError s t) t =
      (Flashcards.dictGet s t).map (fun c => ⟨c.definition, c.error_count + 1⟩) := by
  induction s with
  | nil => rfl
  | cons p s ih =>
    simp only [Flashcards.bumpError, List.map_cons] at *
    simp only [Flashcards.dictGet] at *
    by_cases hp : p.1 = t
    · rw [if_pos (by simp [hp])]
      rw [List.find?_cons_of_pos _ (by simp [hp]),
        List.find?_cons_of_pos _ (by simp [hp])]
      rfl
    · rw [if_neg (by simp [hp])]
      rw [List.find?_cons_of_neg _ (by simp [hp]),
        List.find?_cons_of_neg _ (by simp [hp])]
      exact ih

theorem dictGet_bumpError_ne (s : Flashcards) (t u : String) (h : u ≠ t) :
    Flashcards.dictGet (Flashcards.bumpError s t) u = Flashcards.dictGet s u := by
  induction s with
  | nil => rfl
  | cons p s ih =>
    simp only [Flashcards.bumpError, List.map_cons] at *
    simp only [Flashcards.dictGet] at *
    by_cases hp : p.1 = t
    · rw [if_pos (by simp [hp])]
      have hpu : ¬ (p.1 = u) := fun hh => h (hh ▸ hp.symm ▸ rfl)
      rw [List.find?_cons_of_neg _ (by simp [hp, Ne.symm h]),
        List.find?_cons_of_neg _ (by simp [hpu])]
      exact ih
    · rw [if_neg (by simp [hp])]
      by_cases hu : p.1 = u
      · rw [List.find?_cons_of_pos _ (by simp [hu]),
          List.find?_cons_of_pos _ (by simp [hu])]
      · rw [List.find?_cons_of_neg _ (by simp [hu]),
          List.find?_cons_of_neg _ (by simp [hu])]
        exact ih

theorem dictGetD_bumpError_definition (s : Flashcards) (t u : String) :
    (Flashcards.dictGetD (Flashcards.bumpError s t) u).definition =
      (Flashcards.dictGetD s u).definition := by
  by_cases h : u = t
  · subst h
    rw [Flashcards.dictGetD, Flashcards.dictGetD, dictGet_bumpError_self]
    cases Flashcards.dictGet s u <;> rfl
  · rw [Flashcards.dictGetD, Flashcards.dictGetD, dictGet_bumpError_ne s t u h]

theorem askRounds_length (s : Flashcards) (l : List (String × String)) :
    (askRounds s l).2.length = l.length := by
  induction l generalizing s with
  | nil => rfl
  | cons q more ih => simp [askRounds, ih]

theorem askRounds_prompts (s : Flashcards) (l : List (String × String)) :
    (askRounds s l).2.map Prod.fst = l.map (fun q => askPrompt q.1) := by
  induction l generalizing s with
  | nil => rfl
  | cons q more ih =>
    cases q with
    | mk t a => simp [askRounds, ih]

theorem cycleTake_nil (n : Nat) : cycleTake [] n = [] := by
  simp [cycleTake]

theorem cycleTake_length (xs : List String) (n : Nat) (h : xs ≠ []) :
    (cycleTake xs n).length = n := by
  rw [cycleTake, if_neg (by simpa using h)]
  simp

theorem cycleTake_getElem? (xs : List String) (n i : Nat) (h : xs ≠ [])
    (hi : i < n) : (cycleTake xs n)[i]? = some (xs.getD (i % xs.length) "") := by
  rw [cycleTake, if_neg (by simpa using h)]
  simp [List.getElem?_map, List.getElem?_range, hi]

/-! ### Decimal round-trip: `Nat.repr` then `String.toNat?` gives back the
number.  This backs the error-count field of the file codec: `csv.writer`
writes `str(error_count)` and `import_file` applies `int` to the field. -/

theorem toDigitsCore_append (fuel n : Nat) (acc : List Char) :
    Nat.toDigitsCore 10 fuel n acc = Nat.toDigitsCore 10 fuel n [] ++ acc := by
  induction fuel generalizing n acc with
  | zero => simp [Nat.toDigitsCore]
  | succ f ih =>
    simp only [Nat.toDigitsCore]
    by_cases h : n / 10 = 0
    · simp [h]
    · rw [if_neg h, if_neg h, ih (n / 10) (Nat.digitChar (n % 10) :: acc),
        ih (n / 10) [Nat.digitChar (n % 10)], List.append_assoc]
      rfl

theorem toDigitsCore_fuel (fuel fuel2 n : Nat) (acc : List Char)
    (h : n < fuel) (h2 : n < fuel2) :
    Nat.toDigitsCore 10 fuel n acc = Nat.toDigitsCore 10 fuel2 n acc := by
  induction fuel generalizing fuel2 n acc with
  | zero => omega
  | succ f ih =>
    cases fuel2 with
    | zero => omega
    | succ f2 =>
      simp only [Nat.toDigitsCore]
      by_cases hn : n / 10 = 0
      · simp [hn]
      · rw [if_neg hn, if_neg hn]
        have hlt : n / 10 < n := Nat.div_lt_self (by omega) (by norm_num)
        exact ih f2 (n / 10) _ (by omega) (by omega)

theorem toDigits_small (n : Nat) (h : n < 10) :
    Nat.toDigits 10 n = [Nat.digitChar n] := by
  rw [Nat.toDigits]
  simp [Nat.toDigitsCore, Nat.div_eq_of_lt h, Nat.mod_eq_of_lt h]

theorem toDigitsCore_succ (f n : Nat) :
    Nat.toDigitsCore 10 (f + 1) n [] =
      if n / 10 = 0 then [Nat.digitChar (n % 10)]
      else Nat.toDigitsCore 10 f (n / 10) [Nat.digitChar (n % 10)] := by
  simp only [Nat.toDigitsCore]

theorem toDigits_large (n : Nat) (h : 10 ≤ n) :
    Nat.toDigits 10 n = Nat.toDigits 10 (n / 10) ++ [Nat.digitChar (n % 10)] := by
  have h0 : ¬ (n / 10 = 0) := by omega
  have hlt : n / 10 < n := Nat.div_lt_self (by omega) (by norm_num)
  conv_lhs => rw [Nat.toDigits, toDigitsCore_succ, if_neg h0, toDigitsCore_append]
  rw [Nat.toDigits]
  rw [toDigitsCore_fuel n (n / 10 + 1) (n / 10) [] (by omega) (by omega)]

theorem digitChar_isDigit (d : Nat) (h : d < 10) :
    (Nat.digitChar d).isDigit = true := by
  revert h
  revert d
  decide

theorem digitChar_val (d : Nat) (h : d < 10) :
    (Nat.digitChar d).toNat - Char.toNat '0' = d := by
  revert h
  revert d
  decide

theorem toDigits_all_digits (n : Nat) :
    ∀ c ∈ Nat.toDigits 10 n, c.isDigit = true := by
  induction n using Nat.strong_induction_on with
  | _ n ih =>
    by_cases h : n < 10
    · rw [toDigits_small n h]
      intro c hc
      rw [List.mem_singleton] at hc
      subst hc
      exact digitChar_isDigit n h
    · rw [toDigits_large n (by omega)]
      intro c hc
      rcases List.mem_append.1 hc with h1 | h2
      · exact ih (n / 10) (Nat.div_lt_self (by omega) (by norm_num)) c h1
      · rw [List.mem_singleton] at h2
        subst h2
        exact digitChar_isDigit (n % 10) (Nat.mod_lt n (by norm_num))

theorem toDigits_ne_nil (n : Nat) : Nat.toDigits 10 n ≠ [] := by
  by_cases h : n < 10
  · rw [toDigits_small n h]
    simp
  · rw [toDigits_large n (by omega)]
    simp

theorem toDigits_foldl (n : Nat) :
    ∀ a : Nat,
      (Nat.toDigits 10 n).foldl (fun m c => m * 10 + (c.toNat - Char.toNat '0')) a =
        a * 10 ^ (Nat.toDigits 10 n).length + n := by
  induction n using Nat.strong_induction_on with
  | _ n ih =>
    intro a
    by_cases h : n < 10
    · rw [toDigits_small n h]
      simp only [List.foldl_cons, List.foldl_nil, List.length_singleton]
      rw [digitChar_val n h, pow_one]
    · rw [toDigits_large n (by omega)]
      rw [List.foldl_append, List.length_append]
      have hlt : n / 10 < n := Nat.div_lt_self (by omega) (by norm_num)
      rw [ih (n / 10) hlt a]
      simp only [List.foldl_cons, List.foldl_nil, List.length_singleton]
      rw [digitChar_val (n % 10) (Nat.mod_lt n (by norm_num))]
      have hdm : 10 * (n / 10) + n % 10 = n := Nat.div_add_mod n 10
      calc (a * 10 ^ (Nat.toDigits 10 (n / 10)).length + n / 10) * 10 + n % 10
          = a * 10 ^ (Nat.toDigits 10 (n / 10)).length * 10 +
              (10 * (n / 10) + n % 10) := by ring
        _ = a * 10 ^ ((Nat.toDigits 10 (n / 10)).length + 1) + n := by
              rw [hdm, pow_succ]; ring

theorem toNat?_repr (n : Nat) : (Nat.repr n).toNat? = some n := by
  have hds : (Nat.repr n).data = Nat.toDigits 10 n := rfl
  have hne : Nat.repr n ≠ "" := by
    intro hh
    have hdata : (Nat.repr n).data = [] := by rw [hh]
    rw [hds] at hdata
    exact toDigits_ne_nil n hdata
  have hnat : (Nat.repr n).isNat = true := by
    simp only [String.isNat, Bool.and_eq_true, Bool.not_eq_true']
    refine ⟨?_, ?_⟩
    · by_contra hyp
      rw [Bool.not_eq_false] at hyp
      exact hne ((String.isEmpty_iff _).1 hyp)
    · rw [String.all_eq, List.all_eq_true]
      intro c hc
      exact toDigits_all_digits n c (by rw [hds] at hc; exact hc)
  rw [String.toNat?, if_pos hnat]
  congr 1
  rw [String.foldl_eq, hds, toDigits_foldl n 0]
  simp

theorem parseErrorCount_toString (n : Nat) : parseErrorCount (toString n) = n := by
  have ht : toString n = Nat.repr n := rfl
  rw [parseErrorCount, ht, toNat?_repr]
  rfl

theorem containsKey_append (s1 s2 : Flashcards) (k : String) :
    Flashcards.containsKey (s1 ++ s2) k =
      (Flashcards.containsKey s1 k || Flashcards.containsKey s2 k) := by
  simp [Flashcards.containsKey, List.any_append]

theorem importRecords_export_aux (s : Flashcards) (h : Flashcards.WF s) :
    ∀ acc : Flashcards,
      (∀ k ∈ Flashcards.keys s, Flashcards.containsKey acc k = false) →
      Flashcards.importRecords acc (Flashcards.export_file s).1 = acc ++ s := by
  induction s with
  | nil => intro acc _; simp [Flashcards.export_file, Flashcards.importRecords]
  | cons p s ih =>
    intro acc hdisj
    simp only [Flashcards.export_file, List.map_cons] at *
    simp only [Flashcards.importRecords]
    rw [parseErrorCount_toString]
    have hhead : Flashcards.containsKey acc p.1 = false :=
      hdisj p.1 (by simp [Flashcards.keys])
    rw [dictInsert_of_not_contains acc p.1 _ hhead]
    have hWFtail : Flashcards.WF s := by
      simpa [Flashcards.WF, Flashcards.keys] using (List.nodup_cons.1 h).2
    have hnotmem : p.1 ∉ Flashcards.keys s := by
      simpa [Flashcards.WF, Flashcards.keys] using (List.nodup_cons.1 h).1
    have hdisj2 : ∀ k ∈ Flashcards.keys s,
        Flashcards.containsKey (acc ++ [(p.1, p.2)]) k = false := by
      intro k hk
      rw [containsKey_append]
      have h1 : Flashcards.containsKey acc k = false :=
        hdisj k (by simp [Flashcards.keys]; right; simpa [Flashcards.keys] using hk)
      have h2 : Flashcards.containsKey [(p.1, p.2)] k = false := by
        simp only [Flashcards.containsKey, List.any_cons, List.any_nil]
        have : p.1 ≠ k := fun hh => hnotmem (hh ▸ hk)
        simp [this]
      rw [h1, h2]
      rfl
    have := ih hWFtail (acc ++ [(p.1, p.2)]) hdisj2
    rw [show ((p.1, p.2) : String × Card) = p from rfl] at this ⊢
    rw [this, List.append_assoc]
    rfl

/-! ### First-match, deletion and maximum lemmas -/

theorem find?_of_first {α : Type} (l : List α) (p : α → Bool) (i : Fin l.length)
    (hp : p (l.get i) = true)
    (hmin : ∀ j : Fin l.length, j < i → p (l.get j) = false) :
    l.find? p = some (l.get i) := by
  induction l with
  | nil => exact absurd i.2 (by simp)
  | cons x xs ih =>
    cases i using Fin.cases with
    | zero =>
      have hp2 : p x = true := hp
      rw [List.find?_cons_of_pos _ hp2]
      rfl
    | succ i2 =>
      have hx : p x = false := by
        have := hmin ⟨0, by simp⟩ (by simp [Fin.lt_def])
        simpa using this
      rw [List.find?_cons_of_neg _ (by simp [hx])]
      refine ih i2 (by simpa using hp) ?_
      intro j hj
      have := hmin j.succ (Fin.succ_lt_succ_iff.2 hj)
      simpa using this

theorem contains_keys_eq (s : Flashcards) (t : String) :
    (Flashcards.keys s).contains t = Flashcards.containsKey s t := by
  induction s with
  | nil => rfl
  | cons p s ih =>
    simp only [Flashcards.keys, List.map_cons, List.contains_cons,
      Flashcards.containsKey, List.any_cons] at *
    rw [← ih]
    rw [show (t == p.1) = (p.1 == t) from by
      by_cases h : p.1 = t
      · simp [h]
      · simp [h, Ne.symm h]]

theorem dictGet_isSome_of_contains (s : Flashcards) (t : String)
    (h : Flashcards.containsKey s t = true) :
    ∃ c, Flashcards.dictGet s t = some c := by
  simp only [Flashcards.containsKey, List.any_eq_true] at h
  rcases h with ⟨p, hp, hpk⟩
  have : (List.find? (fun p => p.1 == t) s).isSome :=
    List.find?_isSome.2 ⟨p, hp, hpk⟩
  rcases Option.isSome_iff_exists.1 this with ⟨q, hq⟩
  exact ⟨q.2, by simp [Flashcards.dictGet, hq]⟩

theorem dictDelete_eq_filter (s : Flashcards) (t : String) (h : Flashcards.WF s) :
    Flashcards.dictDelete s t = s.filter (fun p => !(p.1 == t)) := by
  induction s with
  | nil => rfl
  | cons p s ih =>
    have hWFtail : Flashcards.WF s := by
      simpa [Flashcards.WF, Flashcards.keys] using (List.nodup_cons.1 h).2
    have hnotmem : p.1 ∉ Flashcards.keys s := by
      simpa [Flashcards.WF, Flashcards.keys] using (List.nodup_cons.1 h).1
    by_cases hp : p.1 = t
    · rw [Flashcards.dictDelete, List.eraseP_cons_of_pos (by simp [hp]),
        List.filter_cons_of_neg (by simp [hp])]
      symm
      rw [List.filter_eq_self]
      intro q hq
      have : q.1 ≠ t := by
        intro hh
        exact hnotmem (by
          rw [hp, ← hh]
          exact List.mem_map_of_mem Prod.fst hq)
      simp [this]
    · rw [Flashcards.dictDelete, List.eraseP_cons_of_neg (by simp [hp]),
        List.filter_cons_of_pos (by simp [hp])]
      rw [← ih hWFtail]
      rfl

theorem length_dictDelete (s : Flashcards) (t : String)
    (h : Flashcards.containsKey s t = true) :
    (Flashcards.dictDelete s t).length + 1 = s.length := by
  induction s with
  | nil => simp [Flashcards.containsKey] at h
  | cons p s ih =>
    by_cases hp : p.1 = t
    · rw [Flashcards.dictDelete, List.eraseP_cons_of_pos (by simp [hp])]
      simp
    · have h2 : Flashcards.containsKey s t = true := by
        simpa [Flashcards.containsKey, List.any_cons, hp] using h
      rw [Flashcards.dictDelete, List.eraseP_cons_of_neg (by simp [hp])]
      simp only [List.length_cons]
      rw [show (List.eraseP (fun p => p.1 == t) s) = Flashcards.dictDelete s t from rfl]
      have := ih h2
      omega

theorem foldl_max_init_le (l : List Card) (a : Nat) :
    a ≤ l.foldl (fun m c => max m c.error_count) a := by
  induction l generalizing a with
  | nil => simp
  | cons c l ih =>
    calc a ≤ max a c.error_count := le_max_left _ _
      _ ≤ _ := ih (max a c.error_count)

theorem foldl_max_mem_le (l : List Card) :
    ∀ c ∈ l, ∀ a : Nat, c.error_count ≤ l.foldl (fun m c => max m c.error_count) a := by
  induction l with
  | nil => intro c hc _; exact absurd hc (List.not_mem_nil c)
  | cons d l ih =>
    intro c hc a
    rw [List.foldl_cons]
    rcases List.mem_cons.1 hc with h1 | h2
    · rw [h1]
      calc d.error_count ≤ max a d.error_count := le_max_right _ _
        _ ≤ _ := foldl_max_init_le l (max a d.error_count)
    · exact ih c h2 (max a d.error_count)

theorem le_maxErrorCount (s : Flashcards) (p : String × Card) (hp : p ∈ s) :
    p.2.error_count ≤ Flashcards.maxErrorCount s :=
  foldl_max_mem_le (Flashcards.values s) p.2
    (by simpa [Flashcards.values] using List.mem_map_of_mem Prod.snd hp) 0

theorem maxErrorCount_of_all_zero (s : Flashcards)
    (h : ∀ c ∈ Flashcards.values s, c.error_count = 0) :
    Flashcards.maxErrorCount s = 0 := by
  rw [Flashcards.maxErrorCount]
  induction s with
  | nil => rfl
  | cons p s ih =>
    simp only [Flashcards.values, List.map_cons, List.foldl_cons] at *
    rw [h p.2 (List.mem_cons_self _ _)]
    exact ih (fun c hc => h c (List.mem_cons_of_mem _ hc))

theorem hardest_filter_eq (s : Flashcards) (M : Nat) (h : Flashcards.WF s) :
    (Flashcards.keys s).filter
        (fun card => (Flashcards.dictGetD s card).error_count == M) =
      (s.filter (fun p => p.2.error_count == M)).map Prod.fst := by
  induction s with
  | nil => rfl
  | cons p s ih =>
    have hWFtail : Flashcards.WF s := by
      simpa [Flashcards.WF, Flashcards.keys] using (List.nodup_cons.1 h).2
    have hnotmem : p.1 ∉ Flashcards.keys s := by
      simpa [Flashcards.WF, Flashcards.keys] using (List.nodup_cons.1 h).1
    have hhead : Flashcards.dictGetD (p :: s) p.1 = p.2 := by
      rw [Flashcards.dictGetD, dictGet_cons_self p s]
      rfl
    have htail : (Flashcards.keys s).filter
        (fun card => (Flashcards.dictGetD (p :: s) card).error_count == M) =
        (Flashcards.keys s).filter
        (fun card => (Flashcards.dictGetD s card).error_count == M) := by
      apply List.filter_congr
      intro c hc
      have hne : c ≠ p.1 := fun hh => hnotmem (hh ▸ hc)
      rw [Flashcards.dictGetD, Flashcards.dictGetD, dictGet_cons_ne p s c hne]
    rw [show Flashcards.keys (p :: s) = p.1 :: Flashcards.keys s from rfl]
    by_cases hM : p.2.error_count = M
    · rw [List.filter_cons_of_pos (by rw [hhead]; simp [hM]),
        List.filter_cons_of_pos (by simp [hM]),
        List.map_cons, htail, ih hWFtail]
    · rw [List.filter_cons_of_neg (by rw [hhead]; simp [hM]),
        List.filter_cons_of_neg (by simp [hM]),
        htail, ih hWFtail]

/-! ### The claims -/

/-- C8: importing from a missing file reports "File not found.", yields no
records, and leaves the store completely unchanged; the condition is
non-fatal (the operation returns normally to the command loop). -/
theorem flashcards_C8 (s : Flashcards) :
    Flashcards.import_file s none = (s, "File not found.") := rfl

/-- C4: round-trip through the file codec: exporting a store and importing
the resulting records into an empty store reproduces exactly the same
sequence of (term, definition, error count) entries, in the same order. -/
theorem flashcards_C4 (s : Flashcards) (h : Flashcards.WF s) :
    Flashcards.importRecords [] (Flashcards.export_file s).1 = s := by
  have := importRecords_export_aux s h [] (by intro k _; rfl)
  simpa using this

theorem flashcards_C4_witness :
    Flashcards.importRecords []
        (Flashcards.export_file
          [("cat", ⟨"a feline", 2⟩), ("dog", ⟨"a canine", 10⟩)]).1 =
      [("cat", ⟨"a feline", 2⟩), ("dog", ⟨"a canine", 10⟩)] :=
  flashcards_C4 [("cat", ⟨"a feline", 2⟩), ("dog", ⟨"a canine", 10⟩)] (by decide)

/-- C7: import applies last write wins for duplicate terms: after
`importRecords`, the card stored for `t` comes from the last record of the
file whose term is `t` (with its definition and parsed error count), and
from the prior store when no record mentions `t`; no record is ever
rejected (the fold is total and unconditional). -/
theorem flashcards_C7 (recs : List (String × String × String)) (s : Flashcards)
    (t : String) :
    Flashcards.dictGet (Flashcards.importRecords s recs) t =
      match recs.reverse.find? (fun r => r.1 == t) with
      | some r => some ⟨r.2.1, parseErrorCount r.2.2⟩
      | none => Flashcards.dictGet s t := by
  induction recs generalizing s with
  | nil => rfl
  | cons r rs ih =>
    rcases r with ⟨rt, rd, rec2⟩
    simp only [Flashcards.importRecords]
    rw [ih]
    rw [List.reverse_cons, List.find?_append]
    cases hf : rs.reverse.find? (fun r => r.1 == t) with
    | some r2 => simp [hf]
    | none =>
      simp only [hf, Option.none_or]
      by_cases hrt : rt = t
      · subst hrt
        rw [List.find?_cons_of_pos _ (by simp)]
        simp [dictGet_dictInsert_self]
      · rw [List.find?_cons_of_neg _ (by simp [hrt]), List.find?_nil]
        simp [dictGet_dictInsert_ne s rt t _ (Ne.symm hrt)]

/-- C6: interactive add rejects a duplicate term or a duplicate definition
without modifying the store (the rejection is a re-prompt, here `none`);
on success the pair is appended at the end of iteration order with error
count 0; hence `add(t, d1)` then `add(t, d2)` never both succeed. -/
theorem flashcards_C6 (s : Flashcards) (t d1 d2 : String) :
    (Flashcards.containsKey s t = true → Flashcards.add_card s t d1 = none) ∧
    (Flashcards.memValues s d1 = true → Flashcards.add_card s t d1 = none) ∧
    (Flashcards.containsKey s t = false → Flashcards.memValues s d1 = false →
      Flashcards.add_card s t d1 =
        some (s ++ [(t, ⟨d1, 0⟩)],
          "The pair (\"" ++ t ++ "\":\"" ++ d1 ++ "\") has been added.")) ∧
    (∀ s2 m, Flashcards.add_card s t d1 = some (s2, m) →
      Flashcards.add_card s2 t d2 = none) := by
  refine ⟨?_, ?_, ?_, ?_⟩
  · intro hc
    rw [Flashcards.add_card, check_input_for_duplicates,
      if_pos (by rw [contains_keys_eq]; exact hc)]
  · intro hv
    rw [Flashcards.add_card, check_input_for_duplicates]
    by_cases hc : (Flashcards.keys s).contains t
    · rw [if_pos hc]
    · rw [if_neg hc]
      simp only [hv]
      rfl
  · intro hc hv
    rw [Flashcards.add_card, check_input_for_duplicates,
      if_neg (by rw [contains_keys_eq, hc]; exact Bool.false_ne_true)]
    simp only [hv, Bool.false_eq_true, if_false]
    rw [dictInsert_of_not_contains s t _ hc]
  · intro s2 m hadd
    rw [Flashcards.add_card, check_input_for_duplicates] at hadd
    by_cases hc : (Flashcards.keys s).contains t
    · rw [if_pos hc] at hadd
      exact absurd hadd (by simp)
    · rw [if_neg hc] at hadd
      by_cases hv : Flashcards.memValues s d1 = true
      · rw [hv] at hadd
        exact absurd hadd (by simp)
      · simp only [Bool.not_eq_true] at hv
        rw [hv] at hadd
        simp only [Bool.false_eq_true, if_false, Option.some.injEq, Prod.mk.injEq] at hadd
        have hs2 : s2 = Flashcards.dictInsert s t ⟨d1, 0⟩ := hadd.1.symm
        rw [Flashcards.add_card, check_input_for_duplicates,
          if_pos (by
            rw [contains_keys_eq, hs2]
            exact containsKey_dictInsert_self s t ⟨d1, 0⟩)]

theorem flashcards_C6_witness :
    Flashcards.add_card [] "tea" "a drink" =
      some ([("tea", ⟨"a drink", 0⟩)], "The pair (\"tea\":\"a drink\") has been added.") ∧
    Flashcards.add_card [("tea", ⟨"a drink", 0⟩)] "tea" "a brew" = none := by
  constructor
  · exact ((flashcards_C6 [] "tea" "a drink" "a brew").2.2.1 rfl rfl).trans (by decide)
  · exact (flashcards_C6 [] "tea" "a drink" "a brew").2.2.2
      [("tea", ⟨"a drink", 0⟩)] "The pair (\"tea\":\"a drink\") has been added."
      (by decide)

/-- C9: removing a present term deletes exactly that entry (all other
entries survive, in order) and reports success; removing an absent term
reports the not-found message and leaves the store untouched, with the
size unaltered (the condition is non-fatal: the operation returns). -/
theorem flashcards_C9 (s : Flashcards) (t : String) (h : Flashcards.WF s) :
    (Flashcards.containsKey s t = true →
      Flashcards.remove_card s t =
        (s.filter (fun p => !(p.1 == t)), "The card has been removed.") ∧
      (Flashcards.remove_card s t).1.length + 1 = s.length) ∧
    (Flashcards.containsKey s t = false →
      Flashcards.remove_card s t =
        (s, "Can\x27t remove \"" ++ t ++ "\": there is no such card.")) := by
  constructor
  · intro hc
    constructor
    · rw [Flashcards.remove_card, if_pos hc, dictDelete_eq_filter s t h]
    · rw [Flashcards.remove_card, if_pos hc]
      exact length_dictDelete s t hc
  · intro hc
    rw [Flashcards.remove_card, if_neg (by rw [hc]; exact Bool.false_ne_true)]

theorem flashcards_C9_witness :
    Flashcards.remove_card [("cat", ⟨"a feline", 1⟩), ("dog", ⟨"a canine", 0⟩)] "cat" =
      ([("dog", ⟨"a canine", 0⟩)], "The card has been removed.") ∧
    Flashcards.remove_card [("cat", ⟨"a feline", 1⟩)] "dog" =
      ([("cat", ⟨"a feline", 1⟩)], "Can\x27t remove \"dog\": there is no such card.") := by
  constructor
  · exact (((flashcards_C9 [("cat", ⟨"a feline", 1⟩), ("dog", ⟨"a canine", 0⟩)] "cat"
      (by decide)).1 (by decide)).1).trans (by decide)
  · exact (flashcards_C9 [("cat", ⟨"a feline", 1⟩)] "dog" (by decide)).2 (by decide)

/-- C2: `ask(n)` over a non-empty store of size k performs exactly n quiz
rounds, prompting round i for the term at position i mod k of the
insertion order (cycling and wrapping); over an empty store it performs
zero rounds and terminates. -/
theorem flashcards_C2 (s : Flashcards) (n : Nat) (answers : Nat → String) :
    (s = [] → Flashcards.ask_user s n answers = (s, [])) ∧
    (s ≠ [] →
      (Flashcards.ask_user s n answers).2.length = n ∧
      ∀ i < n, ((Flashcards.ask_user s n answers).2.map Prod.fst)[i]? =
        some (askPrompt ((Flashcards.keys s).getD (i % s.length) ""))) := by
  constructor
  · intro hs
    subst hs
    rfl
  · intro hs
    have hk : Flashcards.keys s ≠ [] := by
      simpa [Flashcards.keys] using hs
    constructor
    · rw [Flashcards.ask_user, askRounds_length, List.length_map,
        List.enum_length, cycleTake_length _ _ hk]
    · intro i hi
      rw [Flashcards.ask_user, askRounds_prompts, List.map_map,
        List.getElem?_map, List.getElem?_enum,
        cycleTake_getElem? _ n i hk hi]
      rw [show (Flashcards.keys s).length = s.length from by
        simp [Flashcards.keys]]
      rfl

theorem flashcards_C2_witness :
    (Flashcards.ask_user [("a", ⟨"x", 0⟩), ("b", ⟨"y", 0⟩)] 3
        (fun _ => "z")).2.length = 3 ∧
    ((Flashcards.ask_user [("a", ⟨"x", 0⟩), ("b", ⟨"y", 0⟩)] 3
        (fun _ => "z")).2.map Prod.fst)[2]? = some (askPrompt "a") := by
  have h := (flashcards_C2 [("a", ⟨"x", 0⟩), ("b", ⟨"y", 0⟩)] 3
    (fun _ => "z")).2 (by decide)
  exact ⟨h.1, (h.2 2 (by decide)).trans (by decide)⟩

/-- C3: in a quiz round, a correct answer reports "Correct!" and changes
nothing; a wrong answer increments the current card's error count by
exactly 1 and the report starts with the message
`Wrong. The right answer is "<definition>"`. -/
theorem flashcards_C3 (s : Flashcards) (t a : String)
    (ht : Flashcards.containsKey s t = true) :
    (a = (Flashcards.dictGetD s t).definition →
      askRound s t a = (s, "Correct!")) ∧
    (a ≠ (Flashcards.dictGetD s t).definition →
      (Flashcards.dictGetD (askRound s t a).1 t).error_count =
        (Flashcards.dictGetD s t).error_count + 1 ∧
      ∃ rest, (askRound s t a).2 =
        "Wrong. The right answer is \"" ++ (Flashcards.dictGetD s t).definition ++
          "\"" ++ rest) := by
  constructor
  · intro ha
    have hb : Card.eq (Flashcards.dictGetD s t) a = true := by
      rw [Card.eq, beq_iff_eq]
      exact ha.symm
    simp only [askRound, hb, if_true]
  · intro ha
    have hb : Card.eq (Flashcards.dictGetD s t) a = false := by
      rw [Card.eq, beq_eq_false_iff_ne]
      exact fun hh => ha hh.symm
    simp only [askRound, hb, Bool.false_eq_true, if_false]
    constructor
    · rcases dictGet_isSome_of_contains s t ht with ⟨c, hc⟩
      show (Flashcards.dictGetD (Flashcards.bumpError s t) t).error_count =
        (Flashcards.dictGetD s t).error_count + 1
      rw [Flashcards.dictGetD, Flashcards.dictGetD, dictGet_bumpError_self, hc]
      rfl
    · exact ⟨_, String.append_assoc _ _ _⟩

theorem flashcards_C3_witness :
    askRound [("cat", ⟨"a feline", 4⟩)] "cat" "a feline" =
      ([("cat", ⟨"a feline", 4⟩)], "Correct!") ∧
    (Flashcards.dictGetD (askRound [("cat", ⟨"a feline", 4⟩)] "cat" "nope").1
      "cat").error_count = 5 := by
  constructor
  · exact ((flashcards_C3 [("cat", ⟨"a feline", 4⟩)] "cat" "a feline"
      (by decide)).1 (by decide))
  · exact (((flashcards_C3 [("cat", ⟨"a feline", 4⟩)] "cat" "nope"
      (by decide)).2 (by decide)).1).trans (by decide)

/-- C10: frame property of a quiz round: the term set, its iteration
order and every definition are unchanged; a correct answer changes no
card at all; a wrong answer changes only the current term's card, and
only by incrementing its error count. -/
theorem flashcards_C10 (s : Flashcards) (t a : String) :
    Flashcards.keys (askRound s t a).1 = Flashcards.keys s ∧
    (∀ u, (Flashcards.dictGetD (askRound s t a).1 u).definition =
      (Flashcards.dictGetD s u).definition) ∧
    (a = (Flashcards.dictGetD s t).definition → (askRound s t a).1 = s) ∧
    (a ≠ (Flashcards.dictGetD s t).definition →
      (∀ u, u ≠ t →
        Flashcards.dictGet (askRound s t a).1 u = Flashcards.dictGet s u) ∧
      Flashcards.dictGet (askRound s t a).1 t =
        (Flashcards.dictGet s t).map
          (fun c => ⟨c.definition, c.error_count + 1⟩)) := by
  by_cases hb : Card.eq (Flashcards.dictGetD s t) a = true
  · simp only [askRound, hb, if_true]
    refine ⟨by trivial, fun _ => by trivial, fun _ => by trivial, fun ha => ?_⟩
    exfalso
    rw [Card.eq, beq_iff_eq] at hb
    exact ha hb.symm
  · have hb2 : Card.eq (Flashcards.dictGetD s t) a = false := by
      simpa using hb
    simp only [askRound, hb2, Bool.false_eq_true, if_false]
    exact ⟨bumpError_keys s t, fun u => dictGetD_bumpError_definition s t u,
      fun ha => absurd ((beq_iff_eq.2 ha.symm : _)) (by
        rw [Card.eq] at hb2
        simp [hb2]),
      fun _ => ⟨fun u hu => dictGet_bumpError_ne s t u hu,
        dictGet_bumpError_self s t⟩⟩

theorem flashcards_C10_witness :
    (askRound [("cat", ⟨"a feline", 0⟩)] "cat" "a feline").1 =
      [("cat", ⟨"a feline", 0⟩)] ∧
    Flashcards.dictGet
        (askRound [("cat", ⟨"a feline", 0⟩), ("dog", ⟨"a canine", 0⟩)]
          "cat" "oops").1 "dog" =
      some ⟨"a canine", 0⟩ := by
  constructor
  · exact (flashcards_C10 [("cat", ⟨"a feline", 0⟩)] "cat" "a feline").2.2.1
      (by decide)
  · exact (((flashcards_C10 [("cat", ⟨"a feline", 0⟩), ("dog", ⟨"a canine", 0⟩)]
      "cat" "oops").2.2.2 (by decide)).1 "dog" (by decide)).trans (by decide)

/-- C1: on a wrong answer, the engine scans all other terms in store
iteration order and, when `u` is the first other term whose definition
equals the answer, the report is the single period-terminated line
`Wrong. The right answer is "<definition>", but your definition is
correct for "<u>".`; in particular on the store
cat ↦ "a feline", dog ↦ "a canine", asking once for "cat" and answering
"a canine" reports exactly
`Wrong. The right answer is "a feline", but your definition is correct
for "dog".` -/
theorem flashcards_C1 (s : Flashcards) (t a u : String)
    (ha : a ≠ (Flashcards.dictGetD s t).definition)
    (hu : isFirstAltMatch s t a u) :
    (askRound s t a).2 =
      "Wrong. The right answer is \"" ++ (Flashcards.dictGetD s t).definition ++
        "\"" ++ (", but your definition is correct for \"" ++ u ++ "\"") ++ "." ∧
    (Flashcards.ask_user [("cat", ⟨"a feline", 0⟩), ("dog", ⟨"a canine", 0⟩)] 1
        (fun _ => "a canine")).2.map Prod.snd =
      ["Wrong. The right answer is \"a feline\", but your definition is correct for \"dog\"."] := by
  constructor
  · have hb : Card.eq (Flashcards.dictGetD s t) a = false := by
      rw [Card.eq, beq_eq_false_iff_ne]
      exact fun hh => ha hh.symm
    simp only [askRound, hb, Bool.false_eq_true, if_false]
    have halt : (Flashcards.keys (Flashcards.bumpError s t)).find?
        (fun other_card => !(t == other_card) &&
          Card.eq (Flashcards.dictGetD (Flashcards.bumpError s t) other_card) a) =
        some u := by
      rw [bumpError_keys s t]
      have hfun : (fun other_card => !(t == other_card) &&
          Card.eq (Flashcards.dictGetD (Flashcards.bumpError s t) other_card) a) =
          (fun other_card => !(t == other_card) &&
            ((Flashcards.dictGetD s other_card).definition == a)) := by
        funext o
        rw [Card.eq, dictGetD_bumpError_definition s t o]
      rw [hfun]
      rcases hu with ⟨i, hget, hne, hdef, hmin⟩
      have hfind := find?_of_first (Flashcards.keys s)
        (fun o => !(t == o) && ((Flashcards.dictGetD s o).definition == a)) i
        (by rw [hget]; simp [hdef, Ne.symm hne])
        (by
          intro j hj
          show (!(t == (Flashcards.keys s).get j) &&
            ((Flashcards.dictGetD s ((Flashcards.keys s).get j)).definition == a)) = false
          rcases hmin j hj with hc1 | hc2
          · have hT : (t == (Flashcards.keys s).get j) = true :=
              beq_iff_eq.2 hc1.symm
            rw [hT]
            rfl
          · have hD : ((Flashcards.dictGetD s
                ((Flashcards.keys s).get j)).definition == a) = false :=
              beq_eq_false_iff_ne.2 hc2
            rw [hD, Bool.and_false])
      rw [hget] at hfind
      exact hfind
    rw [halt]
  · decide

theorem flashcards_C1_witness :
    (askRound [("cat", ⟨"a feline", 0⟩), ("dog", ⟨"a canine", 0⟩)]
        "cat" "a canine").2 =
      "Wrong. The right answer is \"a feline\", but your definition is correct for \"dog\"." :=
  ((flashcards_C1 [("cat", ⟨"a feline", 0⟩), ("dog", ⟨"a canine", 0⟩)]
      "cat" "a canine" "dog" (by decide) (by decide)).1).trans (by decide)

/-- C5: the hardest-card report: with an empty store or all error counts
zero it reports that there are no cards with errors; with a positive
maximum attained by exactly one card it names that term and the count
(singular form); with a tie it lists all attaining terms, comma+space
joined in insertion order, with the shared count (plural form).  The
first conjunct checks that `maxErrorCount` really bounds every card. -/
theorem flashcards_C5 (s : Flashcards) (h : Flashcards.WF s) :
    (∀ p ∈ s, p.2.error_count ≤ Flashcards.maxErrorCount s) ∧
    ((s = [] ∨ ∀ c ∈ Flashcards.values s, c.error_count = 0) →
      Flashcards.hardest_card s = "There are no cards with errors.") ∧
    (∀ u, Flashcards.maxErrorCount s ≠ 0 → attainers s = [u] →
      Flashcards.hardest_card s =
        "The hardest card is \"" ++ u ++ "\". You have " ++
          toString (Flashcards.maxErrorCount s) ++ " errors answering it.") ∧
    (Flashcards.maxErrorCount s ≠ 0 → 1 < (attainers s).length →
      Flashcards.hardest_card s =
        "The hardest cards are " ++ String.intercalate ", " (attainers s) ++
          ". You have " ++ toString (Flashcards.maxErrorCount s) ++
          " errors answering them.") := by
  refine ⟨fun p hp => le_maxErrorCount s p hp, ?_, ?_, ?_⟩
  · intro hz
    have hM : Flashcards.maxErrorCount s = 0 := by
      rcases hz with h1 | h2
      · subst h1
        rfl
      · exact maxErrorCount_of_all_zero s h2
    simp only [Flashcards.hardest_card, hM]
    rfl
  · intro u hM hA
    have hc : (Flashcards.maxErrorCount s == 0) = false :=
      beq_eq_false_iff_ne.2 hM
    simp only [Flashcards.hardest_card, hc, Bool.false_eq_true, if_false]
    rw [hardest_filter_eq s (Flashcards.maxErrorCount s) h]
    rw [show (s.filter
        (fun p => p.2.error_count == Flashcards.maxErrorCount s)).map Prod.fst =
      attainers s from rfl]
    rw [hA]
    rfl
  · intro hM hlen
    have hc : (Flashcards.maxErrorCount s == 0) = false :=
      beq_eq_false_iff_ne.2 hM
    simp only [Flashcards.hardest_card, hc, Bool.false_eq_true, if_false]
    rw [hardest_filter_eq s (Flashcards.maxErrorCount s) h]
    rw [show (s.filter
        (fun p => p.2.error_count == Flashcards.maxErrorCount s)).map Prod.fst =
      attainers s from rfl]
    rw [if_neg (by
      rw [beq_eq_false_iff_ne.2 (by omega : (attainers s).length ≠ 1)]
      exact Bool.false_ne_true)]

theorem flashcards_C5_witness :
    Flashcards.hardest_card [("a", ⟨"x", 0⟩)] = "There are no cards with errors." ∧
    Flashcards.hardest_card [("a", ⟨"x", 3⟩), ("b", ⟨"y", 1⟩)] =
      "The hardest card is \"a\". You have 3 errors answering it." ∧
    Flashcards.hardest_card [("a", ⟨"x", 2⟩), ("b", ⟨"y", 2⟩)] =
      "The hardest cards are a, b. You have 2 errors answering them." := by
  refine ⟨?_, ?_, ?_⟩
  · exact (flashcards_C5 [("a", ⟨"x", 0⟩)] (by decide)).2.1 (Or.inr (by decide))
  · exact ((flashcards_C5 [("a", ⟨"x", 3⟩), ("b", ⟨"y", 1⟩)] (by decide)).2.2.1 "a"
      (by decide) (by decide)).trans (by decide)
  · exact ((flashcards_C5 [("a", ⟨"x", 2⟩), ("b", ⟨"y", 2⟩)] (by decide)).2.2.2
      (by decide) (by decide)).trans (by decide)
